import Mathlib

/-!
Verification of the envelope packing/unpacking core (`EnvelopeService`) and the
credential-creation guard (`IndyIssuerService.createCredential`) of the
repository, via a shallow embedding.

The cryptographic wallet capability (`wallet.pack` / `wallet.unpack`) is out of
scope for the repository itself and is modelled as an abstract capability,
parameterised by the type `W` of wire messages and the type `E` of errors the
capability can raise.  `packMessage` is instrumented to record the full list of
capability invocations (arguments of every `wallet.pack` call, in order), so
that claims about the number of encryption operations, the sender key of each
layer, and the serialization flag of each layer can be stated.  The `Nat`
argument of `pack` is the invocation index within one `packMessage` call,
letting a capability model a failure at a chosen hop.
-/

namespace Envelope

/-- `EnvelopeKeys` from `EnvelopeService`: recipient keys, routing keys and an
optional sender key (`senderKey: string | null`). -/
structure EnvelopeKeys where
  recipientKeys : List String
  routingKeys : List String
  senderKey : Option String
deriving DecidableEq, Repr

/-- The part of `AgentConfig` that `packMessage` reads: the
`useLegacyDidSovPrefix` serialization flag. -/
structure AgentConfig where
  useLegacyDidSovPrefix : Bool
deriving DecidableEq, Repr

/-- A serialized (JSON) message handed to the pack capability: either the
serialized payload (`payload.toJSON ...`, with the legacy-prefix flag that was
used to serialize it) or a serialized `ForwardMessage`
(`forwardMessage.toJSON ...`), whose `to` field is `recipientKeys[0]` at
construction time (`none` models JavaScript `undefined` when the array is
empty) and whose `message` field is the nested wire message. -/
inductive Plain (W : Type) where
  | payload (body : String) (legacy : Bool)
  | forward (toKey : Option String) (message : W) (legacy : Bool)
deriving DecidableEq, Repr

/-- The `to` field of a serialized message (`none` for a payload). -/
def msgTo {W : Type} : Plain W → Option String
  | .payload _ _ => none
  | .forward t _ _ => t

/-- The legacy-prefix flag a serialized message was rendered with. -/
def msgLegacy {W : Type} : Plain W → Bool
  | .payload _ l => l
  | .forward _ _ l => l

/-- `UnpackedMessageContext`: result of one decryption step. -/
structure UnpackedMessageContext (W : Type) where
  message : Plain W
  senderKey : Option String
  recipientKey : Option String
deriving DecidableEq, Repr

/-- The injected wallet capability.  `pack` receives the index of the
invocation within the current `packMessage` call (0 = innermost), the
serialized message, the recipient key list and the optional sender key. -/
structure WalletCap (W E : Type) where
  pack : Nat → Plain W → List String → Option String → Except E W
  unpack : W → Except E (UnpackedMessageContext W)

/-- One recorded invocation of the pack capability. -/
structure PackCall (W : Type) where
  message : Plain W
  recipientKeys : List String
  senderKey : Option String
deriving DecidableEq, Repr

/-- The state threaded through `packMessage`: the caller's `keys` object
(`keysObj`, never written by the source), the local `recipientKeys` variable
(`let recipientKeys = keys.recipientKeys`, reassigned to `[routingKey]` on
each loop iteration) and the list of capability invocations so far. -/
structure LoopSt (W : Type) where
  keysObj : EnvelopeKeys
  recipientKeys : List String
  calls : List (PackCall W)

/-- The `for (const routingKey of routingKeys)` loop of `packMessage`: build a
`ForwardMessage` addressed to the current `recipientKeys[0]`, reassign the
local recipient list to `[routingKey]`, serialize the forward message with the
same legacy flag, and anon-pack it (`senderKey` is `undefined`) for the single
routing key.  A capability failure aborts the loop (the promise rejects). -/
def packLoop {W E : Type} (cap : WalletCap W E) (legacy : Bool) :
    List String → LoopSt W → W → LoopSt W × Except E W
  | [], st, wireMessage => (st, .ok wireMessage)
  | routingKey :: rest, st, wireMessage =>
      let forwardMessage : Plain W := .forward st.recipientKeys.head? wireMessage legacy
      let st' : LoopSt W :=
        { st with recipientKeys := [routingKey],
                  calls := st.calls ++ [⟨forwardMessage, [routingKey], none⟩] }
      match cap.pack st.calls.length forwardMessage [routingKey] none with
      | .error e => (st', .error e)
      | .ok wireMessage' => packLoop cap legacy rest st' wireMessage'

/-- `EnvelopeService.packMessage`: serialize the payload with the config's
legacy flag, pack it for `keys.recipientKeys` with `keys.senderKey ??
undefined`, then wrap once per routing key.  Returns the final thread state
(caller's keys object, local recipient variable, invocation list) together
with the result. -/
def packMessage {W E : Type} (cap : WalletCap W E) (config : AgentConfig)
    (payload : String) (keys : EnvelopeKeys) : LoopSt W × Except E W :=
  let message : Plain W := .payload payload config.useLegacyDidSovPrefix
  let st : LoopSt W :=
    { keysObj := keys, recipientKeys := keys.recipientKeys,
      calls := [⟨message, keys.recipientKeys, keys.senderKey⟩] }
  match cap.pack 0 message keys.recipientKeys keys.senderKey with
  | .error e => (st, .error e)
  | .ok wireMessage => packLoop cap config.useLegacyDidSovPrefix keys.routingKeys st wireMessage

/-- `EnvelopeService.unpackMessage`: a single call to `wallet.unpack`. -/
def unpackMessage {W E : Type} (cap : WalletCap W E) (packedMessage : W) :
    Except E (UnpackedMessageContext W) :=
  cap.unpack packedMessage

/-- The sequence of `to` fields of the forward messages built by the loop,
starting from recipient list `rs`: the first forward goes to `rs.head?`, and
after each hop the working recipient list becomes the single routing key. -/
def forwardTos (rs : List String) : List String → List (Option String)
  | [] => []
  | routingKey :: rest => rs.head? :: forwardTos [routingKey] rest

/-- A concrete wire-message type for instantiating the abstract capability:
a free (symbolic) encryption remembering exactly its arguments. -/
inductive CWire where
  | mk : Plain CWire → List String → Option String → CWire

/-- The ideal capability over `CWire`: `pack` always succeeds and `unpack`
inverts it. -/
def idealCap : WalletCap CWire String where
  pack := fun _ m r s => .ok (.mk m r s)
  unpack := fun w => match w with
    | .mk m r s => .ok ⟨m, s, r.head?⟩

/-- A capability that rejects every pack call with the same error. -/
def failCap0 : WalletCap CWire String where
  pack := fun _ _ _ _ => .error "nokey"
  unpack := fun _ => .error "nokey"

/-- A capability that fails with the fixed error `"boom"` exactly when packing
for recipient key `"M1"` or `"Z8"`, and otherwise behaves like `idealCap`. -/
def failBoomCap : WalletCap CWire String where
  pack := fun _ m r s =>
    if r = ["M1"] ∨ r = ["Z8"] then .error "boom" else .ok (.mk m r s)
  unpack := fun w => match w with
    | .mk m r s => .ok ⟨m, s, r.head?⟩

/-- Sample wires produced by `idealCap` for the concrete witness runs. -/
def wireA : CWire := .mk (.payload "ping" false) ["R1"] none

def wireB : CWire := .mk (.forward (some "R1") wireA false) ["M1"] none

def wireC : CWire := .mk (.forward (some "M1") wireB false) ["M2"] none

def wireS : CWire := .mk (.payload "ping" false) ["R1"] (some "S")

end Envelope

namespace Indy

/-- `CreateCredentialOptions` of `IndyIssuerService.createCredential`; the
credential offer, request and values are opaque payloads passed through to
the toolkit. -/
structure CreateCredentialOptions where
  credentialOffer : String
  credentialRequest : String
  credentialValues : String
  revocationRegistryId : Option String
  tailsFilePath : Option String
deriving DecidableEq, Repr

/-- JavaScript truthiness of an optional string field: `undefined` and the
empty string are falsy, every other string is truthy. -/
def truthy : Option String → Bool
  | none => false
  | some s => s != ""

/-- Errors surfaced by `createCredential`: an `AriesFrameworkError` with its
message, or a failure of an injected capability (surfaced — possibly wrapped
as `IndySdkError` — by the `catch` blocks; the `isIndyError` predicate is
external, so the capability's failure is kept abstract). -/
inductive CredError where
  | ariesFramework (msg : String)
  | capability (e : String)
deriving DecidableEq, Repr

/-- The arguments `createCredential` hands to `indy.issuerCreateCredential`:
the wallet handle, the three payloads, `revocationRegistryId ?? null` and the
tails reader handle. -/
structure IssuerCreateCall where
  walletHandle : Nat
  credentialOffer : String
  credentialRequest : String
  credentialValues : String
  revocationRegistryId : Option String
  tailsReaderHandle : Nat
deriving DecidableEq, Repr

/-- `IndyIssuerService.createTailsReader`: check that the tails file exists
(via the injected file system), then open a blob storage reader on its
directory.  The directory derivation `getDirFromFilePath` lives outside the
modelled sources and is folded into the injected `openBlob` capability, which
here receives the tails file path. -/
def createTailsReader (fsExists : String → Bool) (openBlob : String → Except String Nat)
    (tailsFilePath : String) : Except CredError Nat :=
  if fsExists tailsFilePath then
    match openBlob tailsFilePath with
    | .ok h => .ok h
    | .error e => .error (.capability e)
  else
    .error (.ariesFramework ("Tails file does not exist at path " ++ tailsFilePath))

/-- `IndyIssuerService.createCredential`: compute the tails reader handle
(`tailsFilePath ? await this.createTailsReader(tailsFilePath) : 0`), throw
`AriesFrameworkError('Revocation not supported yet')` when
`revocationRegistryId || tailsFilePath` is truthy, and otherwise call
`indy.issuerCreateCredential`.  Returns the list of `issuerCreateCredential`
invocations made (empty or a singleton) together with the result. -/
def createCredential (fsExists : String → Bool) (openBlob : String → Except String Nat)
    (issuerCreate : IssuerCreateCall → String × String) (walletHandle : Nat)
    (opts : CreateCredentialOptions) :
    List IssuerCreateCall × Except CredError (String × String) :=
  match (if truthy opts.tailsFilePath then
      createTailsReader fsExists openBlob (opts.tailsFilePath.getD "") else .ok 0) with
  | .error e => ([], .error e)
  | .ok tailsReaderHandle =>
    if truthy opts.revocationRegistryId || truthy opts.tailsFilePath then
      ([], .error (.ariesFramework "Revocation not supported yet"))
    else
      let call : IssuerCreateCall :=
        ⟨walletHandle, opts.credentialOffer, opts.credentialRequest, opts.credentialValues,
          opts.revocationRegistryId, tailsReaderHandle⟩
      ([call], .ok (issuerCreate call))

end Indy

namespace Envelope

theorem idealCap_inv : ∀ (i : Nat) (m : Plain CWire) (r : List String)
    (s : Option String) (w : CWire), idealCap.pack i m r s = .ok w →
    ∃ rk, idealCap.unpack w = .ok ⟨m, s, rk⟩ := by
  intro i m r s w h
  cases h
  exact ⟨r.head?, rfl⟩

/-- The loop never writes the caller's `keys` object. -/
theorem packLoop_keysObj {W E : Type} (cap : WalletCap W E) (legacy : Bool) :
    ∀ (rks : List String) (st : LoopSt W) (wire : W),
      ((packLoop cap legacy rks st wire).1).keysObj = st.keysObj := by
  intro rks
  induction rks with
  | nil => intro st wire; rfl
  | cons rk rest ih =>
    intro st wire
    simp only [packLoop]
    cases hp : cap.pack st.calls.length (.forward st.recipientKeys.head? wire legacy) [rk] none with
    | error e => simp [hp]
    | ok w2 => simp only [hp]; exact ih _ _

/-- The loop only appends to the invocation list; every appended invocation is
an anonymous (`senderKey = none`) pack of a forward message, serialized with
the loop's legacy flag, addressed to a single routing key from the list.  At
most one invocation per routing key is appended. -/
theorem packLoop_calls_extra {W E : Type} (cap : WalletCap W E) (legacy : Bool) :
    ∀ (rks : List String) (st : LoopSt W) (wire : W),
      ∃ extra, ((packLoop cap legacy rks st wire).1).calls = st.calls ++ extra ∧
        extra.length ≤ rks.length ∧
        ∀ c ∈ extra, c.senderKey = none ∧
          (∃ t m, c.message = Plain.forward t m legacy) ∧
          (∃ rk ∈ rks, c.recipientKeys = [rk]) := by
  intro rks
  induction rks with
  | nil => intro st wire; exact ⟨[], by simp [packLoop]⟩
  | cons rk rest ih =>
    intro st wire
    simp only [packLoop]
    cases hp : cap.pack st.calls.length (.forward st.recipientKeys.head? wire legacy) [rk] none with
    | error e =>
      refine ⟨[⟨.forward st.recipientKeys.head? wire legacy, [rk], none⟩], by simp [hp], by simp, ?_⟩
      intro c hc
      simp only [List.mem_singleton] at hc
      subst hc
      exact ⟨rfl, ⟨_, _, rfl⟩, ⟨rk, by simp, rfl⟩⟩
    | ok w2 =>
      simp only [hp]
      obtain ⟨extra, hcalls, hlen, hprop⟩ := ih
        { st with recipientKeys := [rk],
                  calls := st.calls ++ [⟨.forward st.recipientKeys.head? wire legacy, [rk], none⟩] } w2
      refine ⟨⟨.forward st.recipientKeys.head? wire legacy, [rk], none⟩ :: extra, ?_, by simpa using hlen, ?_⟩
      · simpa using hcalls
      · intro c hc
        rcases List.mem_cons.mp hc with h | h
        · subst h
          exact ⟨rfl, ⟨_, _, rfl⟩, ⟨rk, by simp, rfl⟩⟩
        · obtain ⟨h1, h2, rk', hrk', h3⟩ := hprop c h
          exact ⟨h1, h2, ⟨rk', List.mem_cons_of_mem _ hrk', h3⟩⟩

/-- On success, the loop appends exactly one invocation per routing key. -/
theorem packLoop_ok_length {W E : Type} (cap : WalletCap W E) (legacy : Bool) :
    ∀ (rks : List String) (st : LoopSt W) (wire : W) (w : W),
      (packLoop cap legacy rks st wire).2 = .ok w →
      ((packLoop cap legacy rks st wire).1).calls.length = st.calls.length + rks.length := by
  intro rks
  induction rks with
  | nil => intro st wire w _; rfl
  | cons rk rest ih =>
    intro st wire w h
    cases hp : cap.pack st.calls.length (.forward st.recipientKeys.head? wire legacy) [rk] none with
    | error e => simp [packLoop, hp] at h
    | ok w2 =>
      simp only [packLoop, hp] at h ⊢
      have := ih _ w2 w h
      simp only [this]
      simp [Nat.add_comm, Nat.add_assoc, Nat.add_left_comm]

/-- On success, the `to` fields of the recorded invocations extend the prefix
by exactly `forwardTos st.recipientKeys rks`. -/
theorem packLoop_map_to {W E : Type} (cap : WalletCap W E) (legacy : Bool) :
    ∀ (rks : List String) (st : LoopSt W) (wire : W) (w : W),
      (packLoop cap legacy rks st wire).2 = .ok w →
      ((packLoop cap legacy rks st wire).1).calls.map (fun c => msgTo c.message)
        = st.calls.map (fun c => msgTo c.message) ++ forwardTos st.recipientKeys rks := by
  intro rks
  induction rks with
  | nil => intro st wire w _; simp [packLoop, forwardTos]
  | cons rk rest ih =>
    intro st wire w h
    cases hp : cap.pack st.calls.length (.forward st.recipientKeys.head? wire legacy) [rk] none with
    | error e => simp [packLoop, hp] at h
    | ok w2 =>
      simp only [packLoop, hp] at h ⊢
      have := ih _ w2 w h
      simp only [this]
      simp [forwardTos, msgTo]

/-- On success with a non-empty routing list, the returned wire message is the
output of an anonymous pack of a forward message for a single routing key;
with an empty routing list it is the input wire message unchanged. -/
theorem packLoop_ok_last {W E : Type} (cap : WalletCap W E) (legacy : Bool) :
    ∀ (rks : List String) (st : LoopSt W) (wire : W) (w : W),
      (packLoop cap legacy rks st wire).2 = .ok w →
      (rks = [] ∧ w = wire) ∨
      ∃ i t inner rk, cap.pack i (Plain.forward t inner legacy) [rk] none = .ok w := by
  intro rks
  induction rks with
  | nil =>
    intro st wire w h
    simp only [packLoop] at h
    cases h
    exact Or.inl ⟨rfl, rfl⟩
  | cons rk rest ih =>
    intro st wire w h
    simp only [packLoop] at h
    cases hp : cap.pack st.calls.length (.forward st.recipientKeys.head? wire legacy) [rk] none with
    | error e => rw [hp] at h; simp at h
    | ok w2 =>
      rw [hp] at h
      rcases ih _ w2 w h with ⟨_, hw⟩ | ⟨i, t, inner, rk', hlast⟩
      · subst hw
        exact Or.inr ⟨st.calls.length, st.recipientKeys.head?, wire, rk, hp⟩
      · exact Or.inr ⟨i, t, inner, rk', hlast⟩

/-- On failure, the recorded invocation list ends with the failing invocation,
whose index is the number of invocations before it, and the loop's error is
exactly the capability's error for that invocation. -/
theorem packLoop_error {W E : Type} (cap : WalletCap W E) (legacy : Bool) :
    ∀ (rks : List String) (st : LoopSt W) (wire : W) (e : E),
      (packLoop cap legacy rks st wire).2 = .error e →
      ∃ cs c, ((packLoop cap legacy rks st wire).1).calls = cs ++ [c] ∧
        cap.pack cs.length c.message c.recipientKeys c.senderKey = .error e := by
  intro rks
  induction rks with
  | nil => intro st wire e h; simp [packLoop] at h
  | cons rk rest ih =>
    intro st wire e h
    cases hp : cap.pack st.calls.length (.forward st.recipientKeys.head? wire legacy) [rk] none with
    | error e' =>
      simp only [packLoop, hp] at h ⊢
      obtain rfl : e' = e := by simpa using h
      exact ⟨st.calls, ⟨.forward st.recipientKeys.head? wire legacy, [rk], none⟩, by simp, hp⟩
    | ok w2 =>
      simp only [packLoop, hp] at h ⊢
      exact ih _ w2 e h

theorem forwardTos_length (rs : List String) :
    ∀ rks : List String, (forwardTos rs rks).length = rks.length := by
  intro rks
  induction rks generalizing rs with
  | nil => rfl
  | cons rk rest ih => simp [forwardTos, ih]

/-- Index formula for `forwardTos`: entry 0 is the head of the starting
recipient list; entry `i ≥ 1` is routing key `i - 1`. -/
theorem forwardTos_getElem :
    ∀ (rks : List String) (rs : List String) (i : Nat), i < rks.length →
      (forwardTos rs rks)[i]? = some (if i = 0 then rs.head? else some (rks.getD (i - 1) "")) := by
  intro rks
  induction rks with
  | nil => intro rs i hi; simp at hi
  | cons rk rest ih =>
    intro rs i hi
    cases i with
    | zero => simp [forwardTos]
    | succ j =>
      have hj : j < rest.length := Nat.lt_of_succ_lt_succ hi
      have := ih [rk] j hj
      simp only [forwardTos, List.getElem?_cons_succ, this]
      cases j with
      | zero => simp
      | succ k => simp [List.getD_cons_succ]

/-- For a non-empty list, `head?` is entry 0. -/
theorem head?_eq_getD {α : Type} [Inhabited α] (l : List α) (h : l ≠ []) :
    l.head? = some (l.getD 0 default) := by
  cases l with
  | nil => exact absurd rfl h
  | cons a t => rfl

/-- The invocation list of `packMessage` starts with the innermost pack
(serialized payload, the caller's recipient keys and sender key); all later
invocations are anonymous packs of forward messages, one per routing key at
most, each addressed to a single routing key. -/
theorem packMessage_calls_cons {W E : Type} (cap : WalletCap W E) (config : AgentConfig)
    (payload : String) (keys : EnvelopeKeys) :
    ∃ rest, ((packMessage cap config payload keys).1).calls =
      ⟨.payload payload config.useLegacyDidSovPrefix, keys.recipientKeys, keys.senderKey⟩ :: rest ∧
      rest.length ≤ keys.routingKeys.length ∧
      ∀ c ∈ rest, c.senderKey = none ∧
        (∃ t m, c.message = Plain.forward t m config.useLegacyDidSovPrefix) ∧
        (∃ rk ∈ keys.routingKeys, c.recipientKeys = [rk]) := by
  cases hp0 : cap.pack 0 (.payload payload config.useLegacyDidSovPrefix)
      keys.recipientKeys keys.senderKey with
  | error e =>
    refine ⟨[], ?_, by simp, by simp⟩
    simp [packMessage, hp0]
  | ok w0 =>
    obtain ⟨extra, hcalls, hlen, hprop⟩ := packLoop_calls_extra cap config.useLegacyDidSovPrefix
      keys.routingKeys
      { keysObj := keys, recipientKeys := keys.recipientKeys,
        calls := [⟨.payload payload config.useLegacyDidSovPrefix, keys.recipientKeys, keys.senderKey⟩] }
      w0
    refine ⟨extra, ?_, hlen, hprop⟩
    simp only [packMessage, hp0]
    simpa using hcalls

/-- On success, `packMessage` records one invocation per routing key plus the
innermost one. -/
theorem packMessage_ok_length {W E : Type} (cap : WalletCap W E) (config : AgentConfig)
    (payload : String) (keys : EnvelopeKeys) (w : W)
    (hok : (packMessage cap config payload keys).2 = .ok w) :
    ((packMessage cap config payload keys).1).calls.length = keys.routingKeys.length + 1 := by
  cases hp0 : cap.pack 0 (.payload payload config.useLegacyDidSovPrefix)
      keys.recipientKeys keys.senderKey with
  | error e => simp [packMessage, hp0] at hok
  | ok w0 =>
    simp only [packMessage, hp0] at hok ⊢
    have := packLoop_ok_length cap config.useLegacyDidSovPrefix keys.routingKeys
      { keysObj := keys, recipientKeys := keys.recipientKeys,
        calls := [⟨.payload payload config.useLegacyDidSovPrefix, keys.recipientKeys, keys.senderKey⟩] }
      w0 w hok
    simpa [Nat.add_comm] using this

/-- On success, the `to` fields of the recorded invocations are `none` for the
innermost pack followed by `forwardTos keys.recipientKeys keys.routingKeys`. -/
theorem packMessage_map_to {W E : Type} (cap : WalletCap W E) (config : AgentConfig)
    (payload : String) (keys : EnvelopeKeys) (w : W)
    (hok : (packMessage cap config payload keys).2 = .ok w) :
    ((packMessage cap config payload keys).1).calls.map (fun c => msgTo c.message)
      = none :: forwardTos keys.recipientKeys keys.routingKeys := by
  cases hp0 : cap.pack 0 (.payload payload config.useLegacyDidSovPrefix)
      keys.recipientKeys keys.senderKey with
  | error e => simp [packMessage, hp0] at hok
  | ok w0 =>
    simp only [packMessage, hp0] at hok ⊢
    have := packLoop_map_to cap config.useLegacyDidSovPrefix keys.routingKeys
      { keysObj := keys, recipientKeys := keys.recipientKeys,
        calls := [⟨.payload payload config.useLegacyDidSovPrefix, keys.recipientKeys, keys.senderKey⟩] }
      w0 w hok
    simpa [msgTo] using this

/-- On failure, the recorded invocation list ends with the failing invocation
and the returned error is exactly the capability's error for it. -/
theorem packMessage_error {W E : Type} (cap : WalletCap W E) (config : AgentConfig)
    (payload : String) (keys : EnvelopeKeys) (e : E)
    (he : (packMessage cap config payload keys).2 = .error e) :
    ∃ cs c, ((packMessage cap config payload keys).1).calls = cs ++ [c] ∧
      cap.pack cs.length c.message c.recipientKeys c.senderKey = .error e := by
  cases hp0 : cap.pack 0 (.payload payload config.useLegacyDidSovPrefix)
      keys.recipientKeys keys.senderKey with
  | error e0 =>
    simp only [packMessage, hp0] at he ⊢
    obtain rfl : e0 = e := by simpa using he
    exact ⟨[], ⟨.payload payload config.useLegacyDidSovPrefix, keys.recipientKeys, keys.senderKey⟩,
      by simp, hp0⟩
  | ok w0 =>
    simp only [packMessage, hp0] at he ⊢
    exact packLoop_error cap config.useLegacyDidSovPrefix keys.routingKeys
      { keysObj := keys, recipientKeys := keys.recipientKeys,
        calls := [⟨.payload payload config.useLegacyDidSovPrefix, keys.recipientKeys, keys.senderKey⟩] }
      w0 e he

/-- On success with a non-empty routing list, the returned wire message is an
anonymous pack of a forward message; with an empty routing list it is the
innermost pack's output. -/
theorem packMessage_ok_last {W E : Type} (cap : WalletCap W E) (config : AgentConfig)
    (payload : String) (keys : EnvelopeKeys) (w : W)
    (hok : (packMessage cap config payload keys).2 = .ok w) :
    (keys.routingKeys = [] ∧
      cap.pack 0 (.payload payload config.useLegacyDidSovPrefix)
        keys.recipientKeys keys.senderKey = .ok w) ∨
    (keys.routingKeys ≠ [] ∧
      ∃ i t inner rk, cap.pack i (Plain.forward t inner config.useLegacyDidSovPrefix)
        [rk] none = .ok w) := by
  cases hp0 : cap.pack 0 (.payload payload config.useLegacyDidSovPrefix)
      keys.recipientKeys keys.senderKey with
  | error e => simp [packMessage, hp0] at hok
  | ok w0 =>
    simp only [packMessage, hp0] at hok
    cases hrt : keys.routingKeys with
    | nil =>
      rw [hrt] at hok
      simp only [packLoop] at hok
      cases hok
      exact Or.inl ⟨rfl, rfl⟩
    | cons rk0 rest0 =>
      rw [hrt] at hok
      rcases packLoop_ok_last cap config.useLegacyDidSovPrefix (rk0 :: rest0) _ w0 w hok with
        ⟨hnil, _⟩ | hlast
      · exact absurd hnil (by simp)
      · exact Or.inr ⟨by simp [hrt], hlast⟩

/-- C1: for every payload and every `EnvelopeKeys` whose `routingKeys` has
length `N`, a successful `packMessage` invokes the underlying pack capability
exactly `N + 1` times, and — when the capability's `unpack` inverts its
`pack` — unwrapping the returned wire message once yields a `ForwardMessage`
when `N ≥ 1` and the terminal payload when `N = 0`. -/
theorem c1_hop_count {W E : Type} (cap : WalletCap W E) (config : AgentConfig)
    (payload : String) (keys : EnvelopeKeys) (w : W)
    (hinv : ∀ (i : Nat) (m : Plain W) (r : List String) (s : Option String) (w' : W),
      cap.pack i m r s = .ok w' → ∃ rk, cap.unpack w' = .ok ⟨m, s, rk⟩)
    (hok : (packMessage cap config payload keys).2 = .ok w) :
    ((packMessage cap config payload keys).1).calls.length = keys.routingKeys.length + 1 ∧
    (keys.routingKeys ≠ [] → ∃ t inner rk, unpackMessage cap w =
        .ok ⟨.forward t inner config.useLegacyDidSovPrefix, none, rk⟩) ∧
    (keys.routingKeys = [] → ∃ rk, unpackMessage cap w =
        .ok ⟨.payload payload config.useLegacyDidSovPrefix, keys.senderKey, rk⟩) := by
  refine ⟨packMessage_ok_length cap config payload keys w hok, ?_, ?_⟩
  · intro hne
    rcases packMessage_ok_last cap config payload keys w hok with ⟨hnil, _⟩ |
      ⟨_, i, t, inner, rk, hlast⟩
    · exact absurd hnil hne
    · obtain ⟨rk', hu⟩ := hinv i _ [rk] none w hlast
      exact ⟨t, inner, rk', hu⟩
  · intro hnil
    rcases packMessage_ok_last cap config payload keys w hok with ⟨_, hfirst⟩ | ⟨hne, _⟩
    · obtain ⟨rk', hu⟩ := hinv 0 _ keys.recipientKeys keys.senderKey w hfirst
      exact ⟨rk', hu⟩
    · exact absurd hnil hne

/-- Witness for C1: one routing key, so two pack invocations, and one unwrap
of the result is a forward message. -/
theorem c1_hop_count_witness :
    ((packMessage idealCap ⟨false⟩ "ping" ⟨["R1"], ["M1"], none⟩).1).calls.length
        = (["M1"] : List String).length + 1 ∧
    ((["M1"] : List String) ≠ [] → ∃ t inner rk, unpackMessage idealCap wireB =
        .ok ⟨.forward t inner false, none, rk⟩) ∧
    ((["M1"] : List String) = [] → ∃ rk, unpackMessage idealCap wireB =
        .ok ⟨.payload "ping" false, none, rk⟩) :=
  c1_hop_count idealCap ⟨false⟩ "ping" ⟨["R1"], ["M1"], none⟩ wireB idealCap_inv rfl

/-- C2: on success the forward message built at hop `i` is addressed to the
recipient key used at hop `i - 1`: the original `recipientKeys[0]` at hop 0,
and `routingKeys[i-1]` at every hop `i ≥ 1` (invocation `i + 1` of the
recorded list is the pack of hop `i`'s forward message). -/
theorem c2_forward_address {W E : Type} (cap : WalletCap W E) (config : AgentConfig)
    (payload : String) (keys : EnvelopeKeys) (w : W) (i : Nat)
    (hok : (packMessage cap config payload keys).2 = .ok w)
    (hR : keys.recipientKeys ≠ [])
    (hi : i < keys.routingKeys.length) :
    (((packMessage cap config payload keys).1).calls.map (fun c => msgTo c.message))[i + 1]?
      = some (some (if i = 0 then keys.recipientKeys.getD 0 ""
          else keys.routingKeys.getD (i - 1) "")) := by
  rw [packMessage_map_to cap config payload keys w hok]
  rw [List.getElem?_cons_succ]
  rw [forwardTos_getElem keys.routingKeys keys.recipientKeys i hi]
  cases i with
  | zero => simp [head?_eq_getD keys.recipientKeys hR]
  | succ j => simp

/-- Witness for C2 at hop 1 of routing keys `["M1", "M2"]`: the forward
message of hop 1 is addressed to routing key 0, namely `"M1"`. -/
theorem c2_forward_address_witness :
    (((packMessage idealCap ⟨false⟩ "ping" ⟨["R1"], ["M1", "M2"], none⟩).1).calls.map
        (fun c => msgTo c.message))[2]? = some (some "M1") :=
  c2_forward_address idealCap ⟨false⟩ "ping" ⟨["R1"], ["M1", "M2"], none⟩ wireC 1 rfl
    (by decide) (by decide)

/-- C3: the innermost invocation receives the caller's sender key; every
later (forward-layer) invocation passes no sender key. -/
theorem c3_forward_layers_anonymous {W E : Type} (cap : WalletCap W E) (config : AgentConfig)
    (payload : String) (keys : EnvelopeKeys) :
    ∃ rest, ((packMessage cap config payload keys).1).calls =
      ⟨.payload payload config.useLegacyDidSovPrefix, keys.recipientKeys, keys.senderKey⟩ :: rest ∧
      ∀ c ∈ rest, c.senderKey = none := by
  obtain ⟨rest, hcalls, _, hprop⟩ := packMessage_calls_cons cap config payload keys
  exact ⟨rest, hcalls, fun c hc => (hprop c hc).1⟩

/-- Witness for C3 with an authenticated payload (`senderKey = some "S"`). -/
theorem c3_forward_layers_anonymous_witness :
    ∃ rest, ((packMessage idealCap ⟨false⟩ "ping" ⟨["R1"], ["M1"], some "S"⟩).1).calls =
      ⟨.payload "ping" false, ["R1"], some "S"⟩ :: rest ∧
      ∀ c ∈ rest, c.senderKey = none :=
  c3_forward_layers_anonymous idealCap ⟨false⟩ "ping" ⟨["R1"], ["M1"], some "S"⟩

/-- C4 is false of the code: `packMessage` has no empty-`recipientKeys` check.
With empty `recipientKeys` and a capability that accepts the call it succeeds
outright — no `ConfigurationError` is raised, and the pack capability has
been invoked (here once, with the empty recipient list). -/
theorem c4_counterexample :
    (packMessage idealCap ⟨false⟩ "ping" ⟨[], [], none⟩).2
        = .ok (.mk (.payload "ping" false) [] none) ∧
    ((packMessage idealCap ⟨false⟩ "ping" ⟨[], [], none⟩).1).calls
        = [⟨.payload "ping" false, [], none⟩] :=
  ⟨rfl, rfl⟩

/-- C4 amended: `packMessage` performs no validation of `recipientKeys`.  With
empty `recipientKeys` the underlying pack capability is invoked anyway, with
the empty recipient list and the caller's sender key, and any failure of the
call is the capability's own error — the envelope layer raises no
`ConfigurationError` of its own. -/
theorem c4_no_validation {W E : Type} (cap : WalletCap W E) (config : AgentConfig)
    (payload : String) (routingKeys : List String) (senderKey : Option String) :
    ((packMessage cap config payload ⟨[], routingKeys, senderKey⟩).1).calls[0]?
      = some ⟨.payload payload config.useLegacyDidSovPrefix, [], senderKey⟩ ∧
    ∀ e, cap.pack 0 (.payload payload config.useLegacyDidSovPrefix) [] senderKey = .error e →
      (packMessage cap config payload ⟨[], routingKeys, senderKey⟩).2 = .error e := by
  constructor
  · obtain ⟨rest, hcalls, _, _⟩ :=
      packMessage_calls_cons cap config payload ⟨[], routingKeys, senderKey⟩
    rw [hcalls]
    simp
  · intro e he
    simp [packMessage, he]

/-- Witness for the amended C4: a rejecting capability's own error surfaces,
after the capability has been invoked with the empty recipient list. -/
theorem c4_no_validation_witness :
    ((packMessage failCap0 ⟨false⟩ "ping" ⟨[], [], none⟩).1).calls[0]?
      = some ⟨.payload "ping" false, [], none⟩ ∧
    (packMessage failCap0 ⟨false⟩ "ping" ⟨[], [], none⟩).2 = .error "nokey" :=
  ⟨(c4_no_validation failCap0 ⟨false⟩ "ping" [] none).1,
    (c4_no_validation failCap0 ⟨false⟩ "ping" [] none).2 "nokey" rfl⟩

/-- C5: with no routing keys and a capability whose `unpack` inverts its
`pack`, unpacking a successfully packed message returns the serialized payload
and the sender key the caller supplied (absent when none was supplied). -/
theorem c5_round_trip {W E : Type} (cap : WalletCap W E) (config : AgentConfig)
    (payload : String) (keys : EnvelopeKeys) (w : W)
    (hinv : ∀ (i : Nat) (m : Plain W) (r : List String) (s : Option String) (w' : W),
      cap.pack i m r s = .ok w' → ∃ rk, cap.unpack w' = .ok ⟨m, s, rk⟩)
    (_hR : keys.recipientKeys ≠ [])
    (hrt : keys.routingKeys = [])
    (hok : (packMessage cap config payload keys).2 = .ok w) :
    ∃ rk, unpackMessage cap w =
      .ok ⟨.payload payload config.useLegacyDidSovPrefix, keys.senderKey, rk⟩ := by
  rcases packMessage_ok_last cap config payload keys w hok with ⟨_, hfirst⟩ | ⟨hne, _⟩
  · exact hinv 0 _ keys.recipientKeys keys.senderKey w hfirst
  · exact absurd hrt hne

/-- Witness for C5 with an authenticated payload. -/
theorem c5_round_trip_witness :
    ∃ rk, unpackMessage idealCap wireS = .ok ⟨.payload "ping" false, some "S", rk⟩ :=
  c5_round_trip idealCap ⟨false⟩ "ping" ⟨["R1"], [], some "S"⟩ wireS idealCap_inv
    (by decide) rfl rfl

/-- C6: when `packMessage` fails, the failure is the capability's error for
the last attempted invocation, no invocation beyond the failing one occurs,
and no wire message is returned. -/
theorem c6_atomic_failure {W E : Type} (cap : WalletCap W E) (config : AgentConfig)
    (payload : String) (keys : EnvelopeKeys) (e : E)
    (he : (packMessage cap config payload keys).2 = .error e) :
    (∃ cs c, ((packMessage cap config payload keys).1).calls = cs ++ [c] ∧
      cap.pack cs.length c.message c.recipientKeys c.senderKey = .error e) ∧
    ((packMessage cap config payload keys).1).calls.length ≤ keys.routingKeys.length + 1 := by
  refine ⟨packMessage_error cap config payload keys e he, ?_⟩
  obtain ⟨rest, hcalls, hlen, _⟩ := packMessage_calls_cons cap config payload keys
  rw [hcalls]
  simpa using Nat.succ_le_succ hlen

/-- Witness for C6: a capability failing at the forward layer for `"M1"`. -/
theorem c6_atomic_failure_witness :
    (∃ cs c, ((packMessage failBoomCap ⟨false⟩ "ping" ⟨["R1"], ["M1"], none⟩).1).calls
        = cs ++ [c] ∧
      failBoomCap.pack cs.length c.message c.recipientKeys c.senderKey = .error "boom") ∧
    ((packMessage failBoomCap ⟨false⟩ "ping" ⟨["R1"], ["M1"], none⟩).1).calls.length
      ≤ (["M1"] : List String).length + 1 :=
  c6_atomic_failure failBoomCap ⟨false⟩ "ping" ⟨["R1"], ["M1"], none⟩ "boom" rfl

/-- C7: every serialization performed by one `packMessage` call — the payload
and every synthesized forward message — uses the configuration's
`useLegacyDidSovPrefix` flag. -/
theorem c7_legacy_flag_threading {W E : Type} (cap : WalletCap W E) (config : AgentConfig)
    (payload : String) (keys : EnvelopeKeys) :
    ∀ c ∈ ((packMessage cap config payload keys).1).calls,
      msgLegacy c.message = config.useLegacyDidSovPrefix := by
  intro c hc
  obtain ⟨rest, hcalls, _, hprop⟩ := packMessage_calls_cons cap config payload keys
  rw [hcalls] at hc
  rcases List.mem_cons.mp hc with h | h
  · subst h
    rfl
  · obtain ⟨_, ⟨t, m, hm⟩, _⟩ := hprop c h
    rw [hm]
    rfl

/-- Witness for C7 with the legacy flag enabled, at the innermost invocation
of a concrete run. -/
theorem c7_legacy_flag_threading_witness :
    msgLegacy (Plain.payload "ping" true : Plain CWire) = true :=
  c7_legacy_flag_threading idealCap ⟨true⟩ "ping" ⟨["R1"], ["M1"], none⟩
    ⟨Plain.payload "ping" true, ["R1"], none⟩ (List.mem_cons_self _ _)

/-- C8 is false of the code: failures at different hops caused by different
keys can surface as literally identical error values.  A capability failing
with the fixed error `"boom"` on recipient keys `"M1"` and `"Z8"` makes one
run fail at the second invocation (hop 0, key `"M1"`) and another at the
third (hop 1, key `"Z8"`), and `packMessage` returns the bare `"boom"` both
times — the thrown condition identifies neither the hop index nor the key. -/
theorem c8_counterexample :
    (packMessage failBoomCap ⟨false⟩ "ping" ⟨["R1"], ["M1"], none⟩).2 = .error "boom" ∧
    (packMessage failBoomCap ⟨false⟩ "ping" ⟨["R2"], ["Z7", "Z8"], none⟩).2 = .error "boom" ∧
    ((packMessage failBoomCap ⟨false⟩ "ping" ⟨["R1"], ["M1"], none⟩).1).calls.length = 2 ∧
    ((packMessage failBoomCap ⟨false⟩ "ping" ⟨["R2"], ["Z7", "Z8"], none⟩).1).calls.length = 3 :=
  ⟨rfl, rfl, rfl, rfl⟩

/-- C8 amended: every failure of `packMessage` is an error value produced by
the underlying pack capability, propagated unmodified — the envelope layer
attaches no hop-index or key information of its own. -/
theorem c8_error_passthrough {W E : Type} (cap : WalletCap W E) (config : AgentConfig)
    (payload : String) (keys : EnvelopeKeys) (e : E)
    (he : (packMessage cap config payload keys).2 = .error e) :
    ∃ i m r s, cap.pack i m r s = .error e := by
  obtain ⟨cs, c, _, hfail⟩ := packMessage_error cap config payload keys e he
  exact ⟨cs.length, c.message, c.recipientKeys, c.senderKey, hfail⟩

/-- Witness for the amended C8. -/
theorem c8_error_passthrough_witness :
    ∃ i m r s, failBoomCap.pack i m r s = .error "boom" :=
  c8_error_passthrough failBoomCap ⟨false⟩ "ping" ⟨["R2"], ["Z7", "Z8"], none⟩ "boom" rfl

/-- C9: the caller's `keys` object is unchanged by `packMessage` — its
`recipientKeys`, `routingKeys` and `senderKey` fields after the call are the
ones passed in, although the working recipient variable is reassigned on
every hop. -/
theorem c9_keys_unchanged {W E : Type} (cap : WalletCap W E) (config : AgentConfig)
    (payload : String) (keys : EnvelopeKeys) :
    ((packMessage cap config payload keys).1).keysObj = keys := by
  cases hp0 : cap.pack 0 (.payload payload config.useLegacyDidSovPrefix)
      keys.recipientKeys keys.senderKey with
  | error e => simp [packMessage, hp0]
  | ok w0 =>
    simp only [packMessage, hp0]
    exact packLoop_keysObj cap config.useLegacyDidSovPrefix keys.routingKeys _ w0

end Envelope

namespace Indy

/-- C10 is false of the code: with `tailsFilePath` provided but naming a file
the injected file system reports missing, `createCredential` throws the
tails-file error, not `"Revocation not supported yet"` (and
`issuerCreateCredential` is still never invoked). -/
theorem c10_counterexample :
    createCredential (fun _ => false) (fun _ => .ok 7) (fun _ => ("cred", "revId")) 5
        ⟨"offer", "request", "values", none, some "t"⟩
      = ([], .error (.ariesFramework "Tails file does not exist at path t")) ∧
    CredError.ariesFramework "Tails file does not exist at path t"
      ≠ .ariesFramework "Revocation not supported yet" := by
  exact ⟨rfl, by decide⟩

/-- C10 amended: whenever `revocationRegistryId` or `tailsFilePath` carries a
truthy value, `createCredential` throws and `issuerCreateCredential` is never
invoked; the error is `"Revocation not supported yet"` unless the tails
reader setup runs and fails first, in which case that failure is thrown.
`issuerCreateCredential` is reached exactly when both fields are falsy, and
then with tails reader handle 0 and `revocationRegistryId ?? null`. -/
theorem c10_revocation_guard (fsExists : String → Bool)
    (openBlob : String → Except String Nat)
    (issuerCreate : IssuerCreateCall → String × String) (walletHandle : Nat)
    (opts : CreateCredentialOptions) :
    ((truthy opts.revocationRegistryId || truthy opts.tailsFilePath) = true →
      (createCredential fsExists openBlob issuerCreate walletHandle opts).1 = [] ∧
      ∃ e, (createCredential fsExists openBlob issuerCreate walletHandle opts).2 = .error e ∧
        ((truthy opts.tailsFilePath = false ∨
          (∃ h, createTailsReader fsExists openBlob (opts.tailsFilePath.getD "") = .ok h)) →
          e = .ariesFramework "Revocation not supported yet")) ∧
    ((truthy opts.revocationRegistryId || truthy opts.tailsFilePath) = false →
      (createCredential fsExists openBlob issuerCreate walletHandle opts).1
          = [⟨walletHandle, opts.credentialOffer, opts.credentialRequest,
              opts.credentialValues, opts.revocationRegistryId, 0⟩] ∧
      (createCredential fsExists openBlob issuerCreate walletHandle opts).2
          = .ok (issuerCreate ⟨walletHandle, opts.credentialOffer, opts.credentialRequest,
              opts.credentialValues, opts.revocationRegistryId, 0⟩)) := by
  cases htf : truthy opts.tailsFilePath with
  | false =>
    cases hrv : truthy opts.revocationRegistryId with
    | false =>
      refine ⟨?_, ?_⟩
      · intro hor
        simp at hor
      · intro _
        constructor <;> simp [createCredential, htf, hrv]
    | true =>
      refine ⟨?_, ?_⟩
      · intro _
        exact ⟨by simp [createCredential, htf, hrv],
          .ariesFramework "Revocation not supported yet",
          by simp [createCredential, htf, hrv], fun _ => rfl⟩
      · intro hor
        simp at hor
  | true =>
    cases hct : createTailsReader fsExists openBlob (opts.tailsFilePath.getD "") with
    | error e0 =>
      refine ⟨?_, ?_⟩
      · intro _
        refine ⟨by simp [createCredential, htf, hct], e0,
          by simp [createCredential, htf, hct], ?_⟩
        intro hdisj
        rcases hdisj with h | ⟨h1, hh⟩
        · simp at h
        · simp at hh
      · intro hor
        simp at hor
    | ok h0 =>
      refine ⟨?_, ?_⟩
      · intro _
        exact ⟨by simp [createCredential, htf, hct],
          .ariesFramework "Revocation not supported yet",
          by simp [createCredential, htf, hct], fun _ => rfl⟩
      · intro hor
        simp at hor

/-- Witness for the amended C10: a revocation registry id alone triggers the
`"Revocation not supported yet"` error and no `issuerCreateCredential`
invocation. -/
theorem c10_revocation_guard_witness :
    (createCredential (fun _ => true) (fun _ => .ok 7) (fun _ => ("cred", "revId")) 5
        ⟨"offer", "request", "values", some "rev", none⟩).1 = [] ∧
    (createCredential (fun _ => true) (fun _ => .ok 7) (fun _ => ("cred", "revId")) 5
        ⟨"offer", "request", "values", some "rev", none⟩).2
      = .error (.ariesFramework "Revocation not supported yet") := by
  have h := c10_revocation_guard (fun _ => true) (fun _ => .ok 7) (fun _ => ("cred", "revId")) 5
      ⟨"offer", "request", "values", some "rev", none⟩
  obtain ⟨h1, e, h2, h3⟩ := h.1 (by decide)
  exact ⟨h1, by rw [h2, h3 (Or.inl (by decide))]⟩

end Indy
